import Mathlib

set_option maxHeartbeats 1000000

/-!
Shallow embedding of the GraphEnsemble engine
(graph_ensemble/core.py, graph_ensemble/nodes/merge_nodes.py,
graph_ensemble/nodes/reshape_nodes.py,
graph_ensemble/wrappers/sklearn_wrapper.py).

Nodes are heap cells addressed by natural numbers; a Store maps each
address to a node's mutable attributes.  Python exceptions are modelled
by an Err value carrying the store as it was when the exception was
raised (mutations made before the raise persist, as in Python).
Recursion is fuel-bounded; exhausted fuel is Python's RecursionError.
-/

/-- Python values flowing through the graph: None, or a 1-D integer
array standing in for the array-like data the engine passes around. -/
inductive PyVal where
  | none : PyVal
  | arr : List Int → PyVal
  deriving DecidableEq, Repr

/-- Python exception classes the engine can raise. -/
inductive Err where
  | typeError : Err
  | valueError : Err
  | attributeError : Err
  | recursionError : Err
  deriving DecidableEq, Repr

/-- A node's _input attribute: unset (None), a single node, or a list of
nodes (merge nodes). -/
inductive Dep where
  | none : Dep
  | single : Nat → Dep
  | list : List Nat → Dep
  deriving DecidableEq, Repr

/-- Behavior of a wrapped scikit-learn style model.  The model is an
external collaborator; the engine only uses its capability contract:
predict, optionally predict_proba (absent means the attribute access
raises), and fit, which returns the model to adopt
(SKLearnNode does self._model = self._model.fit(X, y)).  fitF yields the
fitted model's new prediction behaviors; the fitted model keeps the same
fitF, an abstraction of the out-of-scope model internals. -/
structure Model where
  predictF : PyVal → PyVal
  predictProbaF : Option (PyVal → PyVal)
  fitF : PyVal → PyVal → (PyVal → PyVal) × Option (PyVal → PyVal)

/-- The model self._model.fit(X, y) returns. -/
def Model.fitModel (m : Model) (X y : PyVal) : Model :=
  { m with predictF := (m.fitF X y).1, predictProbaF := (m.fitF X y).2 }

/-- The _merge_function of a Merge subclass: Concatenate (axis 0 over the
1-D integer arrays of this model), or an arbitrary user subclass of the
abstract Merge class supplying its own merge function. -/
inductive MergeFn where
  | concatenate : MergeFn
  | custom : (List PyVal → PyVal) → MergeFn

/-- View of a value as a 1-D array. -/
def toArr : PyVal → Option (List Int)
  | PyVal.none => Option.none
  | PyVal.arr xs => Option.some xs

/-- np.concatenate on axis 0 over 1-D integer arrays; a non-array element
(such as None) makes numpy raise ValueError. -/
def npConcatenate (vs : List PyVal) : Except Err PyVal :=
  match vs.mapM toArr with
  | Option.some xss => Except.ok (PyVal.arr xss.flatten)
  | Option.none => Except.error Err.valueError

/-- Apply a merge function to the ordered list of input outputs. -/
def MergeFn.apply : MergeFn → List PyVal → Except Err PyVal
  | MergeFn.concatenate, vs => npConcatenate vs
  | MergeFn.custom f, vs => Except.ok (f vs)

/-- ndarray.reshape restricted to the 1-D integer arrays of this model:
reshaping to the array's own length (or to the inferred dimension -1)
keeps the data; an incompatible length raises ValueError; calling
.reshape on None raises AttributeError. -/
def npReshape (v : PyVal) (newShape : Int) : Except Err PyVal :=
  match v with
  | PyVal.none => Except.error Err.attributeError
  | PyVal.arr xs =>
    if newShape = -1 ∨ newShape = (xs.length : Int) then Except.ok (PyVal.arr xs)
    else Except.error Err.valueError

/-- The concrete class of a node: its virtual-dispatch tag together with
the class-specific attributes (_model and _use_probas for SKLearnNode,
_new_shape for Reshape, the merge function for a Merge subclass). -/
inductive NodeKind where
  | input : NodeKind
  | sklearn : Model → Bool → NodeKind
  | reshape : Int → NodeKind
  | merge : MergeFn → NodeKind

/-- Mutable attributes of one node, plus two instrumentation counters:
fitCnt counts executions of the node's own _fit and outCnt counts
executions of the node's underlying output computation.  The counters
model the observable instrumentation the spec mentions; nothing in the
engine reads them. -/
structure NodeState where
  kind : NodeKind
  inp : Dep
  output : PyVal
  fitted : Bool
  fitCnt : Nat
  outCnt : Nat

/-- The heap of nodes. -/
def Store : Type := Nat → NodeState

/-- Write one node's state. -/
def setN (σ : Store) (n : Nat) (s : NodeState) : Store :=
  fun m => if m = n then s else σ m

/-- Which fit implementation a node's class provides: Input.fit (pure
no-op), Merge.fit (fit every input, no flag use), or the base Node.fit
protocol shared by SKLearnNode and Reshape. -/
inductive FitProto where
  | src : FitProto
  | mrg : FitProto
  | generic : FitProto
  deriving DecidableEq, Repr

def NodeKind.fitProto : NodeKind → FitProto
  | NodeKind.input => FitProto.src
  | NodeKind.merge _ => FitProto.mrg
  | NodeKind.sklearn _ _ => FitProto.generic
  | NodeKind.reshape _ => FitProto.generic

/-- Assignment self._output = v performed by the caching branch of
get_output, with the computation counter bumped. -/
def cacheAt (σ : Store) (n : Nat) (v : PyVal) : Store :=
  setN σ n { σ n with output := v, outCnt := (σ n).outCnt + 1 }

mutual

/-- Virtual get_output.  Input returns the stored value as-is.  Every
other class returns the cached _output when one is present, otherwise
computes it (reading from the input node(s); a missing or wrongly-typed
_input raises: attribute access on None or on a list raises
AttributeError, iterating None or a non-list raises TypeError), assigns
_output, and returns it.  The model and use_probas attributes are read
from the dispatch-time state; get_output never mutates them, so the read
point is immaterial. -/
def Node.get_output : Nat → Store → Nat → Except (Err × Store) (PyVal × Store)
  | 0, σ, _ => Except.error (Err.recursionError, σ)
  | fuel+1, σ, n =>
    match (σ n).kind with
    | NodeKind.input => Except.ok ((σ n).output, σ)
    | NodeKind.reshape newShape =>
      if (σ n).output = PyVal.none then
        match (σ n).inp with
        | Dep.single i =>
          match Node.get_output fuel σ i with
          | Except.error e => Except.error e
          | Except.ok (x, σ₁) =>
            match npReshape x newShape with
            | Except.error e => Except.error (e, σ₁)
            | Except.ok v => Except.ok (v, cacheAt σ₁ n v)
        | _ => Except.error (Err.attributeError, σ)
      else Except.ok ((σ n).output, σ)
    | NodeKind.sklearn m useProbas =>
      if (σ n).output = PyVal.none then
        match (σ n).inp with
        | Dep.single i =>
          match Node.get_output fuel σ i with
          | Except.error e => Except.error e
          | Except.ok (x, σ₁) =>
            if useProbas then
              match m.predictProbaF with
              | Option.none => Except.error (Err.attributeError, σ₁)
              | Option.some pp => Except.ok (pp x, cacheAt σ₁ n (pp x))
            else Except.ok (m.predictF x, cacheAt σ₁ n (m.predictF x))
        | _ => Except.error (Err.attributeError, σ)
      else Except.ok ((σ n).output, σ)
    | NodeKind.merge f =>
      if (σ n).output = PyVal.none then
        match (σ n).inp with
        | Dep.list ds =>
          match Node.outList fuel σ ds with
          | Except.error e => Except.error e
          | Except.ok (vs, σ₁) =>
            match f.apply vs with
            | Except.error e => Except.error (e, σ₁)
            | Except.ok v => Except.ok (v, cacheAt σ₁ n v)
        | _ => Except.error (Err.typeError, σ)
      else Except.ok ((σ n).output, σ)

/-- The comprehension [node.get_output() for node in self._input]. -/
def Node.outList : Nat → Store → List Nat → Except (Err × Store) (List PyVal × Store)
  | 0, σ, _ => Except.error (Err.recursionError, σ)
  | _+1, σ, [] => Except.ok ([], σ)
  | fuel+1, σ, d :: ds =>
    match Node.get_output fuel σ d with
    | Except.error e => Except.error e
    | Except.ok (v, σ₁) =>
      match Node.outList fuel σ₁ ds with
      | Except.error e => Except.error e
      | Except.ok (vs, σ₂) => Except.ok (v :: vs, σ₂)

end

/-- The compute-and-cache branch of get_output, exactly the code run when
no cached _output is present.  Factored out to state that a None result
is never cached and is recomputed by every later call. -/
def Node.recompute (fuel : Nat) (σ : Store) (n : Nat) : Except (Err × Store) (PyVal × Store) :=
  match (σ n).kind with
  | NodeKind.input => Except.ok ((σ n).output, σ)
  | NodeKind.reshape newShape =>
    match (σ n).inp with
    | Dep.single i =>
      match Node.get_output fuel σ i with
      | Except.error e => Except.error e
      | Except.ok (x, σ₁) =>
        match npReshape x newShape with
        | Except.error e => Except.error (e, σ₁)
        | Except.ok v => Except.ok (v, cacheAt σ₁ n v)
    | _ => Except.error (Err.attributeError, σ)
  | NodeKind.sklearn m useProbas =>
    match (σ n).inp with
    | Dep.single i =>
      match Node.get_output fuel σ i with
      | Except.error e => Except.error e
      | Except.ok (x, σ₁) =>
        if useProbas then
          match m.predictProbaF with
          | Option.none => Except.error (Err.attributeError, σ₁)
          | Option.some pp => Except.ok (pp x, cacheAt σ₁ n (pp x))
        else Except.ok (m.predictF x, cacheAt σ₁ n (m.predictF x))
    | _ => Except.error (Err.attributeError, σ)
  | NodeKind.merge f =>
    match (σ n).inp with
    | Dep.list ds =>
      match Node.outList fuel σ ds with
      | Except.error e => Except.error e
      | Except.ok (vs, σ₁) =>
        match f.apply vs with
        | Except.error e => Except.error (e, σ₁)
        | Except.ok v => Except.ok (v, cacheAt σ₁ n v)
    | _ => Except.error (Err.typeError, σ)

/-- Assignment self._fitted = True at the end of the base fit protocol. -/
def setFitted (σ : Store) (n : Nat) : Store :=
  setN σ n { σ n with fitted := true }

/-- The node's own training step self._fit(X, y): the inherited no-op for
Reshape, model adoption self._model = self._model.fit(X, y) for
SKLearnNode.  fitCnt records every execution. -/
def runFit (σ : Store) (n : Nat) (X y : PyVal) : Store :=
  match (σ n).kind with
  | NodeKind.sklearn m useProbas =>
    setN σ n { σ n with kind := NodeKind.sklearn (m.fitModel X y) useProbas,
                        fitCnt := (σ n).fitCnt + 1 }
  | _ => setN σ n { σ n with fitCnt := (σ n).fitCnt + 1 }

mutual

/-- Virtual fit dispatched on the node's class.  Input.fit does nothing.
Merge.fit fits every input node, with no check or update of its own
_fitted flag (iterating an unset or non-list _input raises TypeError).
Every other class runs the base Node.fit protocol: skip when _fitted,
otherwise fit the input, read its output, run the own step _fit, and set
_fitted (attribute access .fit on an unset None _input, or on a list,
raises AttributeError). -/
def Node.fit : Nat → Store → Nat → PyVal → Except (Err × Store) Store
  | 0, σ, _, _ => Except.error (Err.recursionError, σ)
  | fuel+1, σ, n, y =>
    match (σ n).kind.fitProto with
    | FitProto.src => Except.ok σ
    | FitProto.mrg =>
      match (σ n).inp with
      | Dep.list ds => Node.fitList fuel σ ds y
      | _ => Except.error (Err.typeError, σ)
    | FitProto.generic =>
      if (σ n).fitted then Except.ok σ
      else
        match (σ n).inp with
        | Dep.single i =>
          match Node.fit fuel σ i y with
          | Except.error e => Except.error e
          | Except.ok σ₁ =>
            match Node.get_output fuel σ₁ i with
            | Except.error e => Except.error e
            | Except.ok (x, σ₂) => Except.ok (setFitted (runFit σ₂ n x y) n)
        | _ => Except.error (Err.attributeError, σ)

/-- The loop for node in self._input: node.fit(y_true). -/
def Node.fitList : Nat → Store → List Nat → PyVal → Except (Err × Store) Store
  | 0, σ, _, _ => Except.error (Err.recursionError, σ)
  | _+1, σ, [], _ => Except.ok σ
  | fuel+1, σ, d :: ds, y =>
    match Node.fit fuel σ d y with
    | Except.error e => Except.error e
    | Except.ok σ₁ => Node.fitList fuel σ₁ ds y

end

/-- Node.clear: drop _output and the _fitted flag. -/
def clearNode (σ : Store) (n : Nat) : Store :=
  setN σ n { σ n with output := PyVal.none, fitted := false }

mutual

/-- Graph._clear_path: nothing for a None argument, otherwise clear the
node and recurse into its input node(s). -/
def Graph.clear_path : Nat → Store → Option Nat → Except (Err × Store) Store
  | 0, σ, _ => Except.error (Err.recursionError, σ)
  | _+1, σ, Option.none => Except.ok σ
  | fuel+1, σ, Option.some n =>
    match ((clearNode σ n) n).inp with
    | Dep.list ds => Graph.clearList fuel (clearNode σ n) ds
    | Dep.single i => Graph.clear_path fuel (clearNode σ n) (Option.some i)
    | Dep.none => Graph.clear_path fuel (clearNode σ n) Option.none

/-- The loop over a list-valued input inside Graph._clear_path. -/
def Graph.clearList : Nat → Store → List Nat → Except (Err × Store) Store
  | 0, σ, _ => Except.error (Err.recursionError, σ)
  | _+1, σ, [] => Except.ok σ
  | fuel+1, σ, d :: ds =>
    match Graph.clear_path fuel σ (Option.some d) with
    | Except.error e => Except.error e
    | Except.ok σ₁ => Graph.clearList fuel σ₁ ds

end

/-- A Graph: the declared Input nodes and the single output node. -/
structure Graph where
  inputNodes : List Nat
  outputNode : Nat
  deriving DecidableEq, Repr

/-- A Graph constructor argument: one node, or a Python list of nodes. -/
inductive NodesArg where
  | one : Nat → NodesArg
  | list : List Nat → NodesArg

/-- Whether a node is an Input instance. -/
def isInput (s : NodeState) : Bool :=
  match s.kind with
  | NodeKind.input => true
  | _ => false

/-- Graph.__init__: _get_node_list wraps a single node in a list and
requires every element to be an Input instance (else TypeError);
Node.validate_type then requires the output argument to be a Node, which
a Python list of nodes is not (TypeError). -/
def Graph.init (σ : Store) (inputs : NodesArg) (output : NodesArg) : Except Err Graph :=
  let ns := match inputs with | NodesArg.one n => [n] | NodesArg.list l => l
  if ns.all (fun n => isInput (σ n)) then
    match output with
    | NodesArg.one t => Except.ok ⟨ns, t⟩
    | NodesArg.list _ => Except.error Err.typeError
  else Except.error Err.typeError

/-- External input to Graph.fit / Graph.predict: a tuple, or any single
non-tuple value. -/
inductive GIn where
  | single : PyVal → GIn
  | tuple : List PyVal → GIn

/-- Graph._validate_input: a tuple's length must match the number of
input nodes (else ValueError); any non-tuple value is replicated once
per input node. -/
def Graph.validate_input (X : GIn) (nodes : List Nat) : Except Err (List PyVal) :=
  match X with
  | GIn.tuple vs =>
    if vs.length ≠ nodes.length then Except.error Err.valueError else Except.ok vs
  | GIn.single v => Except.ok (List.replicate nodes.length v)

/-- Input.store, called by Graph._set_inputs on each input node. -/
def storeInput (σ : Store) (n : Nat) (v : PyVal) : Store :=
  setN σ n { σ n with output := v }

/-- Graph._set_inputs: store each value in its respective input node
(the loop over zip(self._input_nodes, X)). -/
def Graph.set_inputs : Store → List Nat → List PyVal → Store
  | σ, n :: ns, v :: vs => Graph.set_inputs (storeInput σ n v) ns vs
  | σ, _, _ => σ

/-- Graph.fit: validate the input, inject it, drive fit from the output
node, then clear every path. -/
def Graph.fit (fuel : Nat) (σ : Store) (g : Graph) (X : GIn) (y : PyVal) :
    Except (Err × Store) Store :=
  match Graph.validate_input X g.inputNodes with
  | Except.error e => Except.error (e, σ)
  | Except.ok vs =>
    match Node.fit fuel (Graph.set_inputs σ g.inputNodes vs) g.outputNode y with
    | Except.error e => Except.error e
    | Except.ok σ₂ => Graph.clear_path fuel σ₂ (Option.some g.outputNode)

/-- Graph.predict: validate the input, inject it, read the output node,
clear every path, and return the bare predictions. -/
def Graph.predict (fuel : Nat) (σ : Store) (g : Graph) (X : GIn) :
    Except (Err × Store) (PyVal × Store) :=
  match Graph.validate_input X g.inputNodes with
  | Except.error e => Except.error (e, σ)
  | Except.ok vs =>
    match Node.get_output fuel (Graph.set_inputs σ g.inputNodes vs) g.outputNode with
    | Except.error e => Except.error e
    | Except.ok (preds, σ₂) =>
      match Graph.clear_path fuel σ₂ (Option.some g.outputNode) with
      | Except.error e => Except.error e
      | Except.ok σ₃ => Except.ok (preds, σ₃)

/-- A Python argument to Merge.set_input: None, a list of nodes, or any
other object. -/
inductive MergeArg where
  | none : MergeArg
  | list : List Nat → MergeArg
  | other : MergeArg

/-- The validation inside Merge.set_input: None resets the input, a
non-list raises TypeError, a list of fewer than 2 nodes raises
ValueError, otherwise a copy of the list is kept. -/
def Merge.checkInputs : MergeArg → Except Err Dep
  | MergeArg.none => Except.ok Dep.none
  | MergeArg.other => Except.error Err.typeError
  | MergeArg.list ids =>
    if ids.length < 2 then Except.error Err.valueError else Except.ok (Dep.list ids)

/-- Merge.set_input on an existing node. -/
def Merge.set_input (σ : Store) (n : Nat) (arg : MergeArg) : Except (Err × Store) Store :=
  match Merge.checkInputs arg with
  | Except.error e => Except.error (e, σ)
  | Except.ok d => Except.ok (setN σ n { σ n with inp := d })

/-- Merge.__init__(inputs): a fresh merge node wired through set_input. -/
def Merge.init (f : MergeFn) (arg : MergeArg) : Except Err NodeState :=
  match Merge.checkInputs arg with
  | Except.error e => Except.error e
  | Except.ok d => Except.ok ⟨NodeKind.merge f, d, PyVal.none, false, 0, 0⟩

/-- Backward reachability through the _input relation: the relation the
clear walk of Graph._clear_path follows. -/
inductive Reaches (σ : Store) : Nat → Nat → Prop where
  | refl (n : Nat) : Reaches σ n n
  | single {a b c : Nat} : (σ a).inp = Dep.single b → Reaches σ b c → Reaches σ a c
  | multi {a b c : Nat} {ds : List Nat} :
      (σ a).inp = Dep.list ds → b ∈ ds → Reaches σ b c → Reaches σ a c

/-- The state clear() leaves a node in: no cached output, flag down. -/
def clearedAt (σ : Store) (n : Nat) : Prop :=
  (σ n).output = PyVal.none ∧ (σ n).fitted = false

/-! Basic store lemmas. -/

theorem setN_self (σ : Store) (n : Nat) (s : NodeState) : setN σ n s n = s := by
  simp [setN]

theorem setN_other (σ : Store) {m n : Nat} (s : NodeState) (h : m ≠ n) :
    setN σ n s m = σ m := by
  simp [setN, h]

/-! What get_output preserves: every node's class, input wiring, fitted
flag and fit counter survive; only _output and the output counter move. -/

def Skel (σ σ₂ : Store) : Prop :=
  ∀ m, (σ₂ m).inp = (σ m).inp ∧ (σ₂ m).kind = (σ m).kind ∧
    (σ₂ m).fitted = (σ m).fitted ∧ (σ₂ m).fitCnt = (σ m).fitCnt

theorem skel_refl (σ : Store) : Skel σ σ := fun _ => ⟨rfl, rfl, rfl, rfl⟩

theorem skel_trans {σ₁ σ₂ σ₃ : Store} (h₁ : Skel σ₁ σ₂) (h₂ : Skel σ₂ σ₃) :
    Skel σ₁ σ₃ := by
  intro m
  obtain ⟨a1, b1, c1, d1⟩ := h₁ m
  obtain ⟨a2, b2, c2, d2⟩ := h₂ m
  exact ⟨a2.trans a1, b2.trans b1, c2.trans c1, d2.trans d1⟩

theorem skel_cacheAt (σ : Store) (n : Nat) (v : PyVal) : Skel σ (cacheAt σ n v) := by
  intro m
  by_cases h : m = n
  · subst h; simp [cacheAt, setN_self]
  · simp [cacheAt, setN_other σ _ h]

theorem getOutput_skel : ∀ fuel : Nat,
    (∀ σ n r, Node.get_output fuel σ n = Except.ok r → Skel σ r.2) ∧
    (∀ σ ds r, Node.outList fuel σ ds = Except.ok r → Skel σ r.2) := by
  intro fuel
  induction fuel with
  | zero =>
    constructor
    · intro σ n r h
      rw [Node.get_output] at h
      simp at h
    · intro σ ds r h
      rw [Node.outList] at h
      simp at h
  | succ fuel ih =>
    obtain ⟨ihg, ihl⟩ := ih
    constructor
    · intro σ n r h
      rw [Node.get_output] at h
      split at h
      · cases h; exact skel_refl σ
      · split at h
        · split at h
          · split at h
            · exact absurd h (by simp)
            · split at h
              · exact absurd h (by simp)
              · cases h
                exact skel_trans (ihg _ _ _ (by assumption)) (skel_cacheAt _ _ _)
          · exact absurd h (by simp)
        · cases h; exact skel_refl σ
      · split at h
        · split at h
          · split at h
            · exact absurd h (by simp)
            · split at h
              · split at h
                · exact absurd h (by simp)
                · cases h
                  exact skel_trans (ihg _ _ _ (by assumption)) (skel_cacheAt _ _ _)
              · cases h
                exact skel_trans (ihg _ _ _ (by assumption)) (skel_cacheAt _ _ _)
          · exact absurd h (by simp)
        · cases h; exact skel_refl σ
      · split at h
        · split at h
          · split at h
            · exact absurd h (by simp)
            · split at h
              · exact absurd h (by simp)
              · cases h
                exact skel_trans (ihl _ _ _ (by assumption)) (skel_cacheAt _ _ _)
          · exact absurd h (by simp)
        · cases h; exact skel_refl σ
    · intro σ ds r h
      match ds with
      | [] =>
        rw [Node.outList] at h
        cases h; exact skel_refl σ
      | d :: ds =>
        rw [Node.outList] at h
        split at h
        · exact absurd h (by simp)
        · split at h
          · exact absurd h (by simp)
          · cases h
            rename_i e1 v1 s1 h1 e2 v2 s2 h2
            exact skel_trans (ihg σ d (v1, s1) h1) (ihl s1 ds (v2, s2) h2)

/-! What one fit drive preserves: all input wiring and every node's
dispatch class; for nodes not running the generic protocol (Input and
Merge) also the whole class, the fitted flag and the own-step counter. -/

def FitPres (σ σ₂ : Store) : Prop :=
  ∀ m, (σ₂ m).inp = (σ m).inp ∧ (σ₂ m).kind.fitProto = (σ m).kind.fitProto ∧
    ((σ m).kind.fitProto ≠ FitProto.generic →
      (σ₂ m).kind = (σ m).kind ∧ (σ₂ m).fitted = (σ m).fitted ∧
        (σ₂ m).fitCnt = (σ m).fitCnt)

theorem fitPres_refl (σ : Store) : FitPres σ σ :=
  fun _ => ⟨rfl, rfl, fun _ => ⟨rfl, rfl, rfl⟩⟩

theorem fitPres_trans {σ₁ σ₂ σ₃ : Store} (h₁ : FitPres σ₁ σ₂) (h₂ : FitPres σ₂ σ₃) :
    FitPres σ₁ σ₃ := by
  intro m
  obtain ⟨a1, p1, c1⟩ := h₁ m
  obtain ⟨a2, p2, c2⟩ := h₂ m
  refine ⟨a2.trans a1, p2.trans p1, fun hng => ?_⟩
  obtain ⟨k1, f1, n1⟩ := c1 hng
  obtain ⟨k2, f2, n2⟩ := c2 (by rw [p1]; exact hng)
  exact ⟨k2.trans k1, f2.trans f1, n2.trans n1⟩

theorem skel_fitPres {σ σ₂ : Store} (h : Skel σ σ₂) : FitPres σ σ₂ := by
  intro m
  obtain ⟨a, b, c, d⟩ := h m
  exact ⟨a, by rw [b], fun _ => ⟨b, c, d⟩⟩

theorem runFit_other (σ : Store) {m n : Nat} (X y : PyVal) (h : m ≠ n) :
    runFit σ n X y m = σ m := by
  cases hk : (σ n).kind <;> simp [runFit, hk, setN_other _ _ h]

theorem runFit_fitPres (σ : Store) (n : Nat) (X y : PyVal)
    (hp : (σ n).kind.fitProto = FitProto.generic) : FitPres σ (runFit σ n X y) := by
  intro m
  by_cases hm : m = n
  · subst hm
    cases hk : (σ m).kind <;>
      simp_all [runFit, hk, setN_self, NodeKind.fitProto]
  · simp [runFit_other σ X y hm]

theorem setFitted_other (σ : Store) {m n : Nat} (h : m ≠ n) :
    setFitted σ n m = σ m := by
  simp [setFitted, setN_other _ _ h]

theorem setFitted_fitPres (σ : Store) (n : Nat)
    (hp : (σ n).kind.fitProto = FitProto.generic) : FitPres σ (setFitted σ n) := by
  intro m
  by_cases hm : m = n
  · subst hm
    simp [setFitted, setN_self]
    exact fun hng => absurd hp hng
  · simp [setFitted_other σ hm]

theorem fit_pres : ∀ fuel : Nat,
    (∀ σ n y σ₂, Node.fit fuel σ n y = Except.ok σ₂ → FitPres σ σ₂) ∧
    (∀ σ ds y σ₂, Node.fitList fuel σ ds y = Except.ok σ₂ → FitPres σ σ₂) := by
  intro fuel
  induction fuel with
  | zero =>
    constructor
    · intro σ n y σ₂ h
      rw [Node.fit] at h
      simp at h
    · intro σ ds y σ₂ h
      rw [Node.fitList] at h
      simp at h
  | succ fuel ih =>
    obtain ⟨ihf, ihl⟩ := ih
    constructor
    · intro σ n y σ₂ h
      rw [Node.fit] at h
      split at h
      · cases h; exact fitPres_refl σ
      · rename_i hproto
        split at h
        · exact ihl _ _ _ _ h
        · exact absurd h (by simp)
      · rename_i hproto
        split at h
        · cases h; exact fitPres_refl σ
        · split at h
          · split at h
            · exact absurd h (by simp)
            · split at h
              · exact absurd h (by simp)
              · cases h
                rename_i i s1 hfit e2 x s2 hget
                have h1 : FitPres σ s1 := ihf _ _ _ _ hfit
                have h2 : FitPres s1 s2 :=
                  skel_fitPres ((getOutput_skel fuel).1 _ _ (x, s2) hget)
                have hp1 : (s2 n).kind.fitProto = FitProto.generic := by
                  rw [(h2 n).2.1, (h1 n).2.1]; exact hproto
                have h3 : FitPres s2 (runFit s2 n x y) := runFit_fitPres s2 n x y hp1
                have hp2 : ((runFit s2 n x y) n).kind.fitProto = FitProto.generic := by
                  rw [(h3 n).2.1]; exact hp1
                have h4 : FitPres (runFit s2 n x y) (setFitted (runFit s2 n x y) n) :=
                  setFitted_fitPres _ n hp2
                exact fitPres_trans (fitPres_trans (fitPres_trans h1 h2) h3) h4
          · exact absurd h (by simp)
    · intro σ ds y σ₂ h
      match ds with
      | [] =>
        rw [Node.fitList] at h
        cases h; exact fitPres_refl σ
      | d :: ds =>
        rw [Node.fitList] at h
        split at h
        · exact absurd h (by simp)
        · rename_i e1 s1 hfit
          exact fitPres_trans (ihf _ _ _ _ hfit) (ihl _ _ _ _ h)

/-! Step lemmas for the virtual fit. -/

theorem fit_src_noop (fuel : Nat) (σ : Store) (n : Nat) (y : PyVal)
    (hp : (σ n).kind.fitProto = FitProto.src) :
    Node.fit (fuel+1) σ n y = Except.ok σ := by
  simp [Node.fit, hp]

theorem fit_fitted_noop (fuel : Nat) (σ : Store) (n : Nat) (y : PyVal)
    (hp : (σ n).kind.fitProto = FitProto.generic) (hf : (σ n).fitted = true) :
    Node.fit (fuel+1) σ n y = Except.ok σ := by
  simp [Node.fit, hp, hf]

theorem fit_merge_eq (fuel : Nat) (σ : Store) (n : Nat) (y : PyVal) (f : MergeFn)
    (ds : List Nat) (hk : (σ n).kind = NodeKind.merge f) (hi : (σ n).inp = Dep.list ds) :
    Node.fit (fuel+1) σ n y = Node.fitList fuel σ ds y := by
  simp [Node.fit, hk, hi, NodeKind.fitProto]

theorem fit_ok_fitted {fuel : Nat} {σ : Store} {n : Nat} {y : PyVal} {σ₂ : Store}
    (hp : (σ n).kind.fitProto = FitProto.generic)
    (h : Node.fit fuel σ n y = Except.ok σ₂) : (σ₂ n).fitted = true := by
  match fuel with
  | 0 =>
    rw [Node.fit] at h
    simp at h
  | fuel+1 =>
    rw [Node.fit] at h
    split at h
    · rename_i hps; simp [hps] at hp
    · rename_i hps; simp [hps] at hp
    · split at h
      · cases h; assumption
      · split at h
        · split at h
          · exact absurd h (by simp)
          · split at h
            · exact absurd h (by simp)
            · cases h
              simp [setFitted, setN_self]
        · exact absurd h (by simp)

/-- Claim C1: for every node with a dependency, the node's own training step
(_fit, counted by fitCnt) executes at most once per session: once a fit
call on the node has completed, any later fit call on it before clear()
leaves its _fit execution count unchanged, however many downstream paths
invoke it. -/
theorem own_fit_step_at_most_once
    (fuel₁ fuel₂ : Nat) (σ σ₂ σ₃ : Store) (n : Nat) (y₁ y₂ : PyVal)
    (hdep : (σ n).inp ≠ Dep.none)
    (h₁ : Node.fit fuel₁ σ n y₁ = Except.ok σ₂)
    (h₂ : Node.fit fuel₂ σ₂ n y₂ = Except.ok σ₃) :
    (σ₃ n).fitCnt = (σ₂ n).fitCnt := by
  have hpres₁ := (fit_pres fuel₁).1 _ _ _ _ h₁
  have hpres₂ := (fit_pres fuel₂).1 _ _ _ _ h₂
  cases hp : (σ n).kind.fitProto with
  | src =>
    have hps : (σ₂ n).kind.fitProto = FitProto.src := by rw [(hpres₁ n).2.1, hp]
    exact ((hpres₂ n).2.2 (by rw [hps]; simp)).2.2
  | mrg =>
    have hps : (σ₂ n).kind.fitProto = FitProto.mrg := by rw [(hpres₁ n).2.1, hp]
    exact ((hpres₂ n).2.2 (by rw [hps]; simp)).2.2
  | generic =>
    have hp2 : (σ₂ n).kind.fitProto = FitProto.generic := by rw [(hpres₁ n).2.1, hp]
    have hf2 : (σ₂ n).fitted = true := fit_ok_fitted hp h₁
    match fuel₂ with
    | 0 =>
      rw [Node.fit] at h₂
      simp at h₂
    | fuel₂+1 =>
      rw [fit_fitted_noop fuel₂ σ₂ n y₂ hp2 hf2] at h₂
      cases h₂
      rfl

/-- Claim C10: a merge node's fit neither checks nor sets its own fitted flag:
every call, also with the flag already up, is exactly the loop fitting
all of its dependencies, and a completed call leaves the node's own flag
and own-step counter untouched. -/
theorem merge_fit_ignores_own_flag
    (fuel : Nat) (σ : Store) (n : Nat) (y : PyVal) (f : MergeFn) (ds : List Nat)
    (hk : (σ n).kind = NodeKind.merge f) (hi : (σ n).inp = Dep.list ds) :
    Node.fit (fuel+1) σ n y = Node.fitList fuel σ ds y ∧
    (∀ b, Node.fit (fuel+1) (setN σ n { σ n with fitted := b }) n y
        = Node.fitList fuel (setN σ n { σ n with fitted := b }) ds y) ∧
    (∀ σ₂, Node.fit (fuel+1) σ n y = Except.ok σ₂ →
      (σ₂ n).fitted = (σ n).fitted ∧ (σ₂ n).fitCnt = (σ n).fitCnt) := by
  refine ⟨fit_merge_eq fuel σ n y f ds hk hi, fun b => ?_, fun σ₂ h => ?_⟩
  · exact fit_merge_eq fuel _ n y f ds (by simp [setN_self, hk]) (by simp [setN_self, hi])
  · have hpres := (fit_pres (fuel+1)).1 _ _ _ _ h
    have hc := (hpres n).2.2 (by rw [hk]; simp [NodeKind.fitProto])
    exact ⟨hc.2.1, hc.2.2⟩

/-! Concrete material shared by the closed instances below. -/

def idModel : Model := ⟨fun x => x, Option.none, fun _ _ => (fun x => x, Option.none)⟩

def inputNodeSt (v : PyVal) : NodeState :=
  ⟨NodeKind.input, Dep.none, v, false, 0, 0⟩

def skNodeSt (d : Nat) : NodeState :=
  ⟨NodeKind.sklearn idModel false, Dep.single d, PyVal.none, false, 0, 0⟩

def exS : Except (Err × Store) Store → Store
  | Except.ok σ => σ
  | Except.error e => e.2

def exOut : Except (Err × Store) (PyVal × Store) → PyVal × Store
  | Except.ok r => r
  | Except.error e => (PyVal.none, e.2)

def c1Store : Store := fun i => if i = 1 then skNodeSt 0 else inputNodeSt (PyVal.arr [3])

def c1Store1 : Store := exS (Node.fit 9 c1Store 1 (PyVal.arr [5]))

def c1Store2 : Store := exS (Node.fit 9 c1Store1 1 (PyVal.arr [5]))

theorem own_fit_step_at_most_once_witness :
    (c1Store 1).inp ≠ Dep.none ∧
    Node.fit 9 c1Store 1 (PyVal.arr [5]) = Except.ok c1Store1 ∧
    Node.fit 9 c1Store1 1 (PyVal.arr [5]) = Except.ok c1Store2 ∧
    (c1Store2 1).fitCnt = (c1Store1 1).fitCnt :=
  ⟨by decide, rfl, rfl,
    own_fit_step_at_most_once 9 9 c1Store c1Store1 c1Store2 1 (PyVal.arr [5])
      (PyVal.arr [5]) (by decide) rfl rfl⟩

def c10Store : Store := fun i =>
  if i = 2 then
    ⟨NodeKind.merge MergeFn.concatenate, Dep.list [0, 1], PyVal.none, true, 0, 0⟩
  else inputNodeSt (PyVal.arr [1])

theorem merge_fit_ignores_own_flag_witness :
    (c10Store 2).kind = NodeKind.merge MergeFn.concatenate ∧
    (c10Store 2).inp = Dep.list [0, 1] ∧
    (c10Store 2).fitted = true ∧
    Node.fit 9 c10Store 2 (PyVal.arr [7]) = Node.fitList 8 c10Store [0, 1] (PyVal.arr [7]) :=
  ⟨rfl, rfl, rfl,
    (merge_fit_ignores_own_flag 8 c10Store 2 (PyVal.arr [7]) MergeFn.concatenate
      [0, 1] rfl rfl).1⟩

/-! Step lemmas for the virtual get_output. -/

theorem cacheAt_self (σ : Store) (n : Nat) (v : PyVal) :
    cacheAt σ n v n = { σ n with output := v, outCnt := (σ n).outCnt + 1 } := by
  simp [cacheAt, setN_self]

theorem get_output_cached (fuel : Nat) (σ : Store) (n : Nat)
    (hk : (σ n).kind ≠ NodeKind.input) (ho : (σ n).output ≠ PyVal.none) :
    Node.get_output (fuel+1) σ n = Except.ok ((σ n).output, σ) := by
  cases hkk : (σ n).kind with
  | input => exact absurd hkk hk
  | sklearn m p => simp [Node.get_output, hkk, ho]
  | reshape s => simp [Node.get_output, hkk, ho]
  | merge f => simp [Node.get_output, hkk, ho]

theorem get_output_uncached (fuel : Nat) (σ : Store) (n : Nat)
    (hk : (σ n).kind ≠ NodeKind.input) (ho : (σ n).output = PyVal.none) :
    Node.get_output (fuel+1) σ n = Node.recompute fuel σ n := by
  cases hkk : (σ n).kind with
  | input => exact absurd hkk hk
  | sklearn m p => simp [Node.get_output, Node.recompute, hkk, ho]
  | reshape s => simp [Node.get_output, Node.recompute, hkk, ho]
  | merge f => simp [Node.get_output, Node.recompute, hkk, ho]

theorem recompute_ok_caches {fuel : Nat} {σ : Store} {n : Nat} {v : PyVal} {σ₂ : Store}
    (hk : (σ n).kind ≠ NodeKind.input)
    (h : Node.recompute fuel σ n = Except.ok (v, σ₂)) :
    (σ₂ n).output = v ∧ (σ₂ n).kind = (σ n).kind := by
  rw [Node.recompute] at h
  split at h
  · rename_i hkk; exact absurd hkk hk
  · split at h
    · split at h
      · exact absurd h (by simp)
      · split at h
        · exact absurd h (by simp)
        · cases h
          refine ⟨by simp [cacheAt_self], ?_⟩
          rw [cacheAt_self]
          exact (((getOutput_skel fuel).1 _ _ _ (by assumption)) n).2.1
    · exact absurd h (by simp)
  · split at h
    · split at h
      · exact absurd h (by simp)
      · split at h
        · split at h
          · exact absurd h (by simp)
          · cases h
            refine ⟨by simp [cacheAt_self], ?_⟩
            rw [cacheAt_self]
            exact (((getOutput_skel fuel).1 _ _ _ (by assumption)) n).2.1
        · cases h
          refine ⟨by simp [cacheAt_self], ?_⟩
          rw [cacheAt_self]
          exact (((getOutput_skel fuel).1 _ _ _ (by assumption)) n).2.1
    · exact absurd h (by simp)
  · split at h
    · split at h
      · exact absurd h (by simp)
      · split at h
        · exact absurd h (by simp)
        · cases h
          refine ⟨by simp [cacheAt_self], ?_⟩
          rw [cacheAt_self]
          exact (((getOutput_skel fuel).2 _ _ _ (by assumption)) n).2.1
    · exact absurd h (by simp)

theorem get_output_ok_caches {fuel : Nat} {σ : Store} {n : Nat} {v : PyVal} {σ₂ : Store}
    (hk : (σ n).kind ≠ NodeKind.input)
    (h : Node.get_output fuel σ n = Except.ok (v, σ₂)) :
    (σ₂ n).output = v ∧ (σ₂ n).kind = (σ n).kind := by
  match fuel with
  | 0 =>
    rw [Node.get_output] at h
    simp at h
  | fuel+1 =>
    by_cases ho : (σ n).output = PyVal.none
    · rw [get_output_uncached fuel σ n hk ho] at h
      exact recompute_ok_caches hk h
    · rw [get_output_cached fuel σ n hk ho] at h
      cases h
      exact ⟨rfl, rfl⟩

/-- Claim C2, amended: for every non-source node, get_output runs the
underlying computation at most once per session provided the computed
result is not None: the first call caches a non-None result, and every
repeated call before clear() returns the cached value unchanged, with no
recomputation and no state change.  (A None result is not cached; see
the None-sentinel theorem.) -/
theorem repeated_get_output_returns_cache
    (fuel fuel₂ : Nat) (σ : Store) (n : Nat) (v : PyVal) (σ₂ : Store)
    (hk : (σ n).kind ≠ NodeKind.input)
    (h : Node.get_output fuel σ n = Except.ok (v, σ₂))
    (hv : v ≠ PyVal.none) :
    (σ₂ n).output = v ∧ Node.get_output (fuel₂+1) σ₂ n = Except.ok (v, σ₂) := by
  obtain ⟨ho, hkk⟩ := get_output_ok_caches hk h
  refine ⟨ho, ?_⟩
  have hstep := get_output_cached fuel₂ σ₂ n (by rw [hkk]; exact hk) (by rw [ho]; exact hv)
  rw [hstep, ho]

/-- Claim C9: memoization uses None as the absence sentinel: a completed
get_output leaves exactly its result in _output, so a non-None result is
cached while a None result leaves the cache empty and every later call
in the session takes the recompute branch again instead of returning a
cached value. -/
theorem none_sentinel_controls_caching
    (fuel : Nat) (σ : Store) (n : Nat) (v : PyVal) (σ₂ : Store)
    (hk : (σ n).kind ≠ NodeKind.input)
    (h : Node.get_output fuel σ n = Except.ok (v, σ₂)) :
    (σ₂ n).output = v ∧
    (v = PyVal.none →
      ∀ fuel₂, Node.get_output (fuel₂+1) σ₂ n = Node.recompute fuel₂ σ₂ n) := by
  obtain ⟨ho, hkk⟩ := get_output_ok_caches hk h
  refine ⟨ho, fun hv fuel₂ => ?_⟩
  exact get_output_uncached fuel₂ σ₂ n (by rw [hkk]; exact hk) (by rw [ho, hv])

/-! Closed instances: a user merge function returning None makes the
computation rerun on every call (the output counter keeps climbing). -/

def noneMergeStore : Store := fun i =>
  if i = 2 then
    ⟨NodeKind.merge (MergeFn.custom fun _ => PyVal.none), Dep.list [0, 1],
      PyVal.none, false, 0, 0⟩
  else inputNodeSt (PyVal.arr [1])

def noneMergeStore1 : Store := (exOut (Node.get_output 9 noneMergeStore 2)).2

def noneMergeStore2 : Store := (exOut (Node.get_output 9 noneMergeStore1 2)).2

/-- Claim C2 counterexample: node 2 is a merge node whose user merge function
returns None.  Its first get_output completes and runs the computation
(counter 1), yet the second call does not return a cached value: it runs
the computation again (counter 2), contradicting the claim that every
repeated call before clear() returns the cached value unchanged without
recomputation. -/
theorem repeated_get_output_returns_cache_cex :
    Node.get_output 9 noneMergeStore 2 = Except.ok (PyVal.none, noneMergeStore1) ∧
    (noneMergeStore1 2).outCnt = 1 ∧
    (noneMergeStore1 2).output = PyVal.none ∧
    Node.get_output 9 noneMergeStore1 2 = Except.ok (PyVal.none, noneMergeStore2) ∧
    (noneMergeStore2 2).outCnt = 2 :=
  ⟨rfl, rfl, rfl, rfl, rfl⟩

def c2wStore : Store := fun i => if i = 1 then skNodeSt 0 else inputNodeSt (PyVal.arr [4])

def c2wStore1 : Store := (exOut (Node.get_output 9 c2wStore 1)).2

theorem repeated_get_output_returns_cache_witness :
    (c2wStore 1).kind ≠ NodeKind.input ∧
    Node.get_output 9 c2wStore 1 = Except.ok (PyVal.arr [4], c2wStore1) ∧
    PyVal.arr [4] ≠ PyVal.none ∧
    (c2wStore1 1).output = PyVal.arr [4] ∧
    Node.get_output 9 c2wStore1 1 = Except.ok (PyVal.arr [4], c2wStore1) := by
  have hk : (c2wStore 1).kind ≠ NodeKind.input := by
    rw [show (c2wStore 1).kind = NodeKind.sklearn idModel false from rfl]
    exact fun hcon => NodeKind.noConfusion hcon
  have happ := repeated_get_output_returns_cache 9 8 c2wStore 1 (PyVal.arr [4])
    c2wStore1 hk rfl (by decide)
  exact ⟨hk, rfl, by decide, happ.1, happ.2⟩

theorem none_sentinel_controls_caching_witness :
    (noneMergeStore 2).kind ≠ NodeKind.input ∧
    Node.get_output 9 noneMergeStore 2 = Except.ok (PyVal.none, noneMergeStore1) ∧
    (noneMergeStore1 2).output = PyVal.none ∧
    Node.get_output 9 noneMergeStore1 2 = Node.recompute 8 noneMergeStore1 2 := by
  have hk : (noneMergeStore 2).kind ≠ NodeKind.input := by
    rw [show (noneMergeStore 2).kind
        = NodeKind.merge (MergeFn.custom fun _ => PyVal.none) from rfl]
    exact fun hcon => NodeKind.noConfusion hcon
  have happ := none_sentinel_controls_caching 9 noneMergeStore 2 PyVal.none
    noneMergeStore1 hk rfl
  exact ⟨hk, rfl, happ.1, happ.2 rfl 8⟩

/-! The clear walk. -/

theorem clearNode_self (σ : Store) (n : Nat) :
    clearNode σ n n = { σ n with output := PyVal.none, fitted := false } := by
  simp [clearNode, setN_self]

theorem clearNode_other (σ : Store) {m n : Nat} (h : m ≠ n) :
    clearNode σ n m = σ m := by
  simp [clearNode, setN_other _ _ h]

theorem clearNode_inp (σ : Store) (n m : Nat) :
    ((clearNode σ n) m).inp = (σ m).inp := by
  by_cases h : m = n
  · subst h; simp [clearNode_self]
  · simp [clearNode_other σ h]

theorem clearNode_cleared_self (σ : Store) (n : Nat) : clearedAt (clearNode σ n) n := by
  constructor <;> simp [clearNode_self, clearedAt]

theorem clearNode_cleared_mono (σ : Store) (n m : Nat) (h : clearedAt σ m) :
    clearedAt (clearNode σ n) m := by
  by_cases hm : m = n
  · subst hm; exact clearNode_cleared_self σ _
  · obtain ⟨h1, h2⟩ := h
    exact ⟨by rw [clearNode_other σ hm]; exact h1, by rw [clearNode_other σ hm]; exact h2⟩

theorem reaches_congr {σ σ₂ : Store} (h : ∀ k, (σ₂ k).inp = (σ k).inp) {a c : Nat}
    (hr : Reaches σ a c) : Reaches σ₂ a c := by
  induction hr with
  | refl n => exact Reaches.refl n
  | single hs _ ih => exact Reaches.single ((h _).trans hs) ih
  | multi hds hmem _ ih => exact Reaches.multi ((h _).trans hds) hmem ih

theorem clear_inp_pres : ∀ fuel : Nat,
    (∀ σ o σ₂, Graph.clear_path fuel σ o = Except.ok σ₂ →
      ∀ m, (σ₂ m).inp = (σ m).inp) ∧
    (∀ σ ds σ₂, Graph.clearList fuel σ ds = Except.ok σ₂ →
      ∀ m, (σ₂ m).inp = (σ m).inp) := by
  intro fuel
  induction fuel with
  | zero =>
    constructor
    · intro σ o σ₂ h
      rw [Graph.clear_path] at h
      simp at h
    · intro σ ds σ₂ h
      rw [Graph.clearList] at h
      simp at h
  | succ fuel ih =>
    obtain ⟨ihp, ihl⟩ := ih
    constructor
    · intro σ o σ₂ h m
      match o with
      | Option.none =>
        rw [Graph.clear_path] at h
        cases h; rfl
      | Option.some n =>
        rw [Graph.clear_path] at h
        split at h
        · exact (ihl _ _ _ h m).trans (clearNode_inp σ n m)
        · exact (ihp _ _ _ h m).trans (clearNode_inp σ n m)
        · exact (ihp _ _ _ h m).trans (clearNode_inp σ n m)
    · intro σ ds σ₂ h m
      match ds with
      | [] =>
        rw [Graph.clearList] at h
        cases h; rfl
      | d :: ds =>
        rw [Graph.clearList] at h
        split at h
        · exact absurd h (by simp)
        · rename_i e s1 hfirst
          exact (ihl _ _ _ h m).trans (ihp _ _ _ hfirst m)

theorem cleared_mono : ∀ fuel : Nat,
    (∀ σ o σ₂, Graph.clear_path fuel σ o = Except.ok σ₂ →
      ∀ m, clearedAt σ m → clearedAt σ₂ m) ∧
    (∀ σ ds σ₂, Graph.clearList fuel σ ds = Except.ok σ₂ →
      ∀ m, clearedAt σ m → clearedAt σ₂ m) := by
  intro fuel
  induction fuel with
  | zero =>
    constructor
    · intro σ o σ₂ h
      rw [Graph.clear_path] at h
      simp at h
    · intro σ ds σ₂ h
      rw [Graph.clearList] at h
      simp at h
  | succ fuel ih =>
    obtain ⟨ihp, ihl⟩ := ih
    constructor
    · intro σ o σ₂ h m hm
      match o with
      | Option.none =>
        rw [Graph.clear_path] at h
        cases h; exact hm
      | Option.some n =>
        rw [Graph.clear_path] at h
        split at h
        · exact ihl _ _ _ h m (clearNode_cleared_mono σ n m hm)
        · exact ihp _ _ _ h m (clearNode_cleared_mono σ n m hm)
        · exact ihp _ _ _ h m (clearNode_cleared_mono σ n m hm)
    · intro σ ds σ₂ h m hm
      match ds with
      | [] =>
        rw [Graph.clearList] at h
        cases h; exact hm
      | d :: ds =>
        rw [Graph.clearList] at h
        split at h
        · exact absurd h (by simp)
        · rename_i e s1 hfirst
          exact ihl _ _ _ h m (ihp _ _ _ hfirst m hm)

theorem clear_clears : ∀ fuel : Nat,
    (∀ σ n σ₂, Graph.clear_path fuel σ (Option.some n) = Except.ok σ₂ →
      ∀ m, Reaches σ n m → clearedAt σ₂ m) ∧
    (∀ σ ds σ₂, Graph.clearList fuel σ ds = Except.ok σ₂ →
      ∀ d, d ∈ ds → ∀ m, Reaches σ d m → clearedAt σ₂ m) := by
  intro fuel
  induction fuel with
  | zero =>
    constructor
    · intro σ n σ₂ h
      rw [Graph.clear_path] at h
      simp at h
    · intro σ ds σ₂ h
      rw [Graph.clearList] at h
      simp at h
  | succ fuel ih =>
    obtain ⟨ihp, ihl⟩ := ih
    constructor
    · intro σ n σ₂ h m hr
      rw [Graph.clear_path] at h
      cases hr with
      | refl _ =>
        split at h
        · exact (cleared_mono fuel).2 _ _ _ h _ (clearNode_cleared_self σ _)
        · exact (cleared_mono fuel).1 _ _ _ h _ (clearNode_cleared_self σ _)
        · exact (cleared_mono fuel).1 _ _ _ h _ (clearNode_cleared_self σ _)
      | single hb rb =>
        split at h
        · rename_i heq
          rw [clearNode_inp, hb] at heq
          cases heq
        · rename_i heq
          rw [clearNode_inp, hb] at heq
          cases heq
          exact ihp _ _ _ h m (reaches_congr (clearNode_inp σ n) rb)
        · rename_i heq
          rw [clearNode_inp, hb] at heq
          cases heq
      | multi hds hmem rb =>
        split at h
        · rename_i heq
          rw [clearNode_inp, hds] at heq
          cases heq
          exact ihl _ _ _ h _ hmem m (reaches_congr (clearNode_inp σ n) rb)
        · rename_i heq
          rw [clearNode_inp, hds] at heq
          cases heq
        · rename_i heq
          rw [clearNode_inp, hds] at heq
          cases heq
    · intro σ ds σ₂ h d hd m hr
      match ds with
      | [] => exact absurd hd (by simp)
      | d0 :: ds =>
        rw [Graph.clearList] at h
        split at h
        · exact absurd h (by simp)
        · rename_i e s1 hfirst
          rcases List.mem_cons.mp hd with rfl | hd2
          · exact (cleared_mono fuel).2 _ _ _ h m (ihp _ _ _ hfirst m hr)
          · have hinp : ∀ k, (s1 k).inp = (σ k).inp := (clear_inp_pres fuel).1 _ _ _ hfirst
            exact ihl _ _ _ h d hd2 m (reaches_congr hinp hr)

/-- Claim C4: a fit or predict session that completes without an exception
leaves every node reachable from the output node backward through the
input relation clear()ed: no cached output, fitted flag down. -/
theorem session_clears_reachable_nodes :
    (∀ fuel σ g X y σ₂, Graph.fit fuel σ g X y = Except.ok σ₂ →
      ∀ m, Reaches σ₂ g.outputNode m → clearedAt σ₂ m) ∧
    (∀ fuel σ g X v σ₂, Graph.predict fuel σ g X = Except.ok (v, σ₂) →
      ∀ m, Reaches σ₂ g.outputNode m → clearedAt σ₂ m) := by
  constructor
  · intro fuel σ g X y σ₂ h m hr
    rw [Graph.fit] at h
    split at h
    · exact absurd h (by simp)
    · split at h
      · exact absurd h (by simp)
      · rename_i vs hval sm hdrive
        have hinp : ∀ k, (σ₂ k).inp = (sm k).inp := (clear_inp_pres fuel).1 _ _ _ h
        exact (clear_clears fuel).1 _ _ _ h m (reaches_congr (fun k => (hinp k).symm) hr)
  · intro fuel σ g X v σ₂ h m hr
    rw [Graph.predict] at h
    split at h
    · exact absurd h (by simp)
    · split at h
      · exact absurd h (by simp)
      · split at h
        · exact absurd h (by simp)
        · rename_i hclear
          cases h
          have hinp : ∀ k, (σ₂ k).inp = _ := (clear_inp_pres fuel).1 _ _ _ hclear
          exact (clear_clears fuel).1 _ _ _ hclear m
            (reaches_congr (fun k => (hinp k).symm) hr)

def c4Store : Store := fun i => if i = 1 then skNodeSt 0 else inputNodeSt PyVal.none

def c4Final : Store :=
  exS (Graph.fit 9 c4Store (Graph.mk [0] 1) (GIn.single (PyVal.arr [2])) (PyVal.arr [6]))

theorem session_clears_reachable_nodes_witness :
    Graph.fit 9 c4Store (Graph.mk [0] 1) (GIn.single (PyVal.arr [2])) (PyVal.arr [6])
      = Except.ok c4Final ∧
    (c4Final 1).inp = Dep.single 0 ∧
    clearedAt c4Final 0 ∧ clearedAt c4Final 1 := by
  refine ⟨rfl, by decide, ?_, ?_⟩
  · exact session_clears_reachable_nodes.1 9 c4Store (Graph.mk [0] 1)
      (GIn.single (PyVal.arr [2])) (PyVal.arr [6]) c4Final rfl 0
      (Reaches.single (show (c4Final 1).inp = Dep.single 0 by decide) (Reaches.refl 0))
  · exact session_clears_reachable_nodes.1 9 c4Store (Graph.mk [0] 1)
      (GIn.single (PyVal.arr [2])) (PyVal.arr [6]) c4Final rfl 1 (Reaches.refl 1)

/-! Input injection. -/

theorem storeInput_other (σ : Store) {m n : Nat} (v : PyVal) (h : m ≠ n) :
    storeInput σ n v m = σ m := by
  simp [storeInput, setN_other _ _ h]

theorem set_inputs_not_mem (σ : Store) (ns : List Nat) (vs : List PyVal) (m : Nat)
    (h : m ∉ ns) : Graph.set_inputs σ ns vs m = σ m := by
  induction ns generalizing σ vs with
  | nil => rfl
  | cons n ns ih =>
    cases vs with
    | nil => rfl
    | cons v vs =>
      rw [show Graph.set_inputs σ (n :: ns) (v :: vs)
          = Graph.set_inputs (storeInput σ n v) ns vs from rfl]
      rw [ih _ _ (fun hm => h (List.mem_cons_of_mem n hm))]
      exact storeInput_other σ v (fun hm => h (hm ▸ List.mem_cons_self n ns))

theorem set_inputs_replicate_mem (σ : Store) (ns : List Nat) (v : PyVal) (m : Nat)
    (h : m ∈ ns) :
    (Graph.set_inputs σ ns (List.replicate ns.length v) m).output = v := by
  induction ns generalizing σ with
  | nil => cases h
  | cons n ns ih =>
    rw [show (n :: ns).length = ns.length + 1 from rfl, List.replicate_succ]
    rw [show Graph.set_inputs σ (n :: ns) (v :: List.replicate ns.length v)
        = Graph.set_inputs (storeInput σ n v) ns (List.replicate ns.length v) from rfl]
    by_cases hmem : m ∈ ns
    · exact ih _ hmem
    · rcases List.mem_cons.mp h with rfl | h2
      · rw [set_inputs_not_mem _ _ _ _ hmem]
        simp [storeInput, setN_self]
      · exact absurd h2 hmem

/-- Claim C3: feeding a graph a tuple whose length differs from the number of
declared input nodes makes fit and predict raise ValueError before any
node is touched (the store at the raise is the original one), while a
single non-tuple value is broadcast: validation replicates it once per
input node and injection stores it in every declared input node. -/
theorem arity_error_leaves_state_unchanged
    (fuel : Nat) (σ : Store) (g : Graph) (vs : List PyVal) (y v : PyVal) :
    (vs.length ≠ g.inputNodes.length →
      Graph.fit fuel σ g (GIn.tuple vs) y = Except.error (Err.valueError, σ) ∧
      Graph.predict fuel σ g (GIn.tuple vs) = Except.error (Err.valueError, σ)) ∧
    (Graph.validate_input (GIn.single v) g.inputNodes
      = Except.ok (List.replicate g.inputNodes.length v) ∧
    ∀ m, m ∈ g.inputNodes →
      (Graph.set_inputs σ g.inputNodes
        (List.replicate g.inputNodes.length v) m).output = v) := by
  refine ⟨fun hlen => ⟨?_, ?_⟩,
    ⟨rfl, fun m hm => set_inputs_replicate_mem σ _ v m hm⟩⟩
  · rw [Graph.fit]
    simp [Graph.validate_input, hlen]
  · rw [Graph.predict]
    simp [Graph.validate_input, hlen]

theorem arity_error_leaves_state_unchanged_witness :
    ([PyVal.arr [1], PyVal.arr [2]].length ≠ (Graph.mk [0] 1).inputNodes.length) ∧
    Graph.fit 5 c4Store (Graph.mk [0] 1) (GIn.tuple [PyVal.arr [1], PyVal.arr [2]])
      PyVal.none = Except.error (Err.valueError, c4Store) ∧
    Graph.predict 5 c4Store (Graph.mk [0] 1) (GIn.tuple [PyVal.arr [1], PyVal.arr [2]])
      = Except.error (Err.valueError, c4Store) ∧
    Graph.validate_input (GIn.single (PyVal.arr [3])) (Graph.mk [0] 1).inputNodes
      = Except.ok (List.replicate 1 (PyVal.arr [3])) ∧
    (Graph.set_inputs c4Store [0] (List.replicate 1 (PyVal.arr [3])) 0).output
      = PyVal.arr [3] := by
  have h := arity_error_leaves_state_unchanged 5 c4Store (Graph.mk [0] 1)
    [PyVal.arr [1], PyVal.arr [2]] PyVal.none (PyVal.arr [3])
  exact ⟨by decide, (h.1 (by decide)).1, (h.1 (by decide)).2, h.2.1,
    h.2.2 0 (by decide)⟩

/-- Claim C8: on a graph with exactly one declared input node, a bare value
and the one-element tuple holding it drive fit and predict through the
very same computation: results and node states agree exactly. -/
theorem bare_input_equals_singleton_tuple
    (fuel : Nat) (σ : Store) (g : Graph) (v y : PyVal)
    (h1 : g.inputNodes.length = 1) :
    Graph.fit fuel σ g (GIn.single v) y = Graph.fit fuel σ g (GIn.tuple [v]) y ∧
    Graph.predict fuel σ g (GIn.single v) = Graph.predict fuel σ g (GIn.tuple [v]) := by
  have hv : Graph.validate_input (GIn.single v) g.inputNodes = Except.ok [v] := by
    simp [Graph.validate_input, h1]
  have ht : Graph.validate_input (GIn.tuple [v]) g.inputNodes = Except.ok [v] := by
    simp [Graph.validate_input, h1]
  constructor
  · rw [Graph.fit, Graph.fit, hv, ht]
  · rw [Graph.predict, Graph.predict, hv, ht]

theorem bare_input_equals_singleton_tuple_witness :
    (Graph.mk [0] 1).inputNodes.length = 1 ∧
    Graph.fit 9 c4Store (Graph.mk [0] 1) (GIn.single (PyVal.arr [2])) (PyVal.arr [6])
      = Graph.fit 9 c4Store (Graph.mk [0] 1) (GIn.tuple [PyVal.arr [2]]) (PyVal.arr [6]) ∧
    Graph.predict 9 c4Store (Graph.mk [0] 1) (GIn.single (PyVal.arr [2]))
      = Graph.predict 9 c4Store (Graph.mk [0] 1) (GIn.tuple [PyVal.arr [2]]) := by
  have h := bare_input_equals_singleton_tuple 9 c4Store (Graph.mk [0] 1)
    (PyVal.arr [2]) (PyVal.arr [6]) (by decide)
  exact ⟨by decide, h.1, h.2⟩

/-- Claim C5 counterexample: a Graph cannot be built from an ordered list of
terminal nodes: supplying a list as the output argument raises TypeError
at construction (Node.validate_type rejects a Python list), already for
a two-element list of perfectly good nodes. -/
theorem graph_list_of_terminals_cex :
    Graph.init c4Store (NodesArg.one 0) (NodesArg.list [1, 2])
      = Except.error Err.typeError :=
  rfl

/-- Claim C5, amended: a Graph is built from an ordered list of Input nodes
and exactly ONE terminal node — a list supplied as the terminal argument
is rejected with a type error — and predict drives get_output on that
single terminal node and returns its bare output, never a collection. -/
theorem graph_single_terminal_bare_output :
    (∀ σ ins t, (∀ n ∈ ins, isInput (σ n) = true) →
      Graph.init σ (NodesArg.list ins) (NodesArg.one t) = Except.ok (Graph.mk ins t)) ∧
    (∀ σ inputs la,
      Graph.init σ inputs (NodesArg.list la) = Except.error Err.typeError) ∧
    (∀ fuel σ g X vs v σ₂ σ₃,
      Graph.validate_input X g.inputNodes = Except.ok vs →
      Node.get_output fuel (Graph.set_inputs σ g.inputNodes vs) g.outputNode
        = Except.ok (v, σ₂) →
      Graph.clear_path fuel σ₂ (Option.some g.outputNode) = Except.ok σ₃ →
      Graph.predict fuel σ g X = Except.ok (v, σ₃)) := by
  refine ⟨fun σ ins t hin => ?_, fun σ inputs la => ?_,
    fun fuel σ g X vs v σ₂ σ₃ hv hg hc => ?_⟩
  · simp only [Graph.init]
    rw [if_pos (List.all_eq_true.mpr hin)]
  · simp only [Graph.init]
    split <;> rfl
  · rw [Graph.predict]
    simp [hv, hg, hc]

def c5Out : PyVal × Store :=
  exOut (Node.get_output 9 (Graph.set_inputs c4Store [0] [PyVal.arr [2]]) 1)

def c5Cleared : Store := exS (Graph.clear_path 9 c5Out.2 (Option.some 1))

theorem graph_single_terminal_bare_output_witness :
    Graph.init c4Store (NodesArg.list [0]) (NodesArg.one 1)
      = Except.ok (Graph.mk [0] 1) ∧
    Graph.init c4Store (NodesArg.one 0) (NodesArg.list [1, 2])
      = Except.error Err.typeError ∧
    Graph.predict 9 c4Store (Graph.mk [0] 1) (GIn.single (PyVal.arr [2]))
      = Except.ok (c5Out.1, c5Cleared) := by
  have h := graph_single_terminal_bare_output
  exact ⟨h.1 c4Store [0] 1 (by decide), h.2.1 c4Store (NodesArg.one 0) [1, 2],
    h.2.2 9 c4Store (Graph.mk [0] 1) (GIn.single (PyVal.arr [2])) [PyVal.arr [2]]
      c5Out.1 c5Out.2 c5Cleared rfl rfl rfl⟩

def c6Store : Store := fun _ => ⟨NodeKind.sklearn idModel false, Dep.none, PyVal.none, false, 0, 0⟩

/-- Claim C6 counterexample: a model node whose dependency was never set does
not fail with a type error when fit: the call self._input.fit on the
None dependency raises an ATTRIBUTE error, a different exception class
than the TypeError the engine raises elsewhere. -/
theorem fit_unset_dependency_cex :
    Node.fit 5 c6Store 0 (PyVal.arr [1]) = Except.error (Err.attributeError, c6Store) ∧
    Err.attributeError ≠ Err.typeError :=
  ⟨rfl, by decide⟩

/-- Claim C6, amended: fitting a node whose dependency was never set fails —
with an attribute error for the single-dependency classes running the
base protocol (fit attribute access on the absent input), and with a
type error for merge nodes (iterating the absent input) — while source
nodes are exempt: their fit is a pure no-op that never fails. -/
theorem fit_unset_dependency_behavior
    (fuel : Nat) (σ : Store) (n : Nat) (y : PyVal) (hdep : (σ n).inp = Dep.none) :
    ((σ n).kind.fitProto = FitProto.generic → (σ n).fitted = false →
      Node.fit (fuel+1) σ n y = Except.error (Err.attributeError, σ)) ∧
    ((σ n).kind.fitProto = FitProto.mrg →
      Node.fit (fuel+1) σ n y = Except.error (Err.typeError, σ)) ∧
    ((σ n).kind.fitProto = FitProto.src →
      Node.fit (fuel+1) σ n y = Except.ok σ) := by
  refine ⟨fun hp hf => ?_, fun hp => ?_, fun hp => fit_src_noop fuel σ n y hp⟩
  · simp [Node.fit, hp, hf, hdep]
  · simp [Node.fit, hp, hdep]

def c6mStore : Store := fun _ => ⟨NodeKind.merge MergeFn.concatenate, Dep.none, PyVal.none, false, 0, 0⟩

theorem fit_unset_dependency_behavior_witness :
    (c6mStore 0).inp = Dep.none ∧
    (c6mStore 0).kind.fitProto = FitProto.mrg ∧
    Node.fit 5 c6mStore 0 (PyVal.arr [1]) = Except.error (Err.typeError, c6mStore) := by
  exact ⟨by decide, rfl,
    (fit_unset_dependency_behavior 4 c6mStore 0 (PyVal.arr [1]) (by decide)).2.1 rfl⟩

/-! Immediate reads: an Input node, or any node with a cached output,
answers get_output from its state without touching the store. -/

theorem get_output_immediate (fuel : Nat) (σ : Store) (d : Nat)
    (h : (σ d).kind = NodeKind.input ∨ (σ d).output ≠ PyVal.none) :
    Node.get_output (fuel+1) σ d = Except.ok ((σ d).output, σ) := by
  rcases h with hk | ho
  · simp [Node.get_output, hk]
  · by_cases hki : (σ d).kind = NodeKind.input
    · simp [Node.get_output, hki]
    · exact get_output_cached fuel σ d hki ho

theorem outList_immediate (σ : Store) (ds : List Nat) (fuel : Nat)
    (himm : ∀ d ∈ ds, (σ d).kind = NodeKind.input ∨ (σ d).output ≠ PyVal.none)
    (hfuel : ds.length < fuel) :
    Node.outList fuel σ ds = Except.ok (ds.map (fun d => (σ d).output), σ) := by
  induction ds generalizing fuel with
  | nil =>
    obtain ⟨fuel1, rfl⟩ : ∃ k, fuel = k + 1 := ⟨fuel - 1, by omega⟩
    rw [Node.outList]
    rfl
  | cons d ds ih =>
    obtain ⟨fuel1, rfl⟩ : ∃ k, fuel = k + 1 := ⟨fuel - 1, by omega⟩
    obtain ⟨fuel2, rfl⟩ : ∃ k, fuel1 = k + 1 := ⟨fuel1 - 1, by simp at hfuel; omega⟩
    rw [Node.outList]
    rw [get_output_immediate fuel2 σ d (himm d (List.mem_cons_self d ds))]
    have hrest := ih (fuel2 + 1) (fun d hd => himm d (List.mem_cons_of_mem _ hd))
      (by simp at hfuel; omega)
    simp [hrest]

/-- Claim C7: wiring a merge node with fewer than 2 dependencies fails with a
value error, at construction and through set_input alike; with 2 or more
dependencies, get_output applies the node's combination function to the
dependencies' outputs in declared order and caches the result. -/
theorem merge_arity_and_declared_order :
    (∀ f ids, ids.length < 2 →
      Merge.init f (MergeArg.list ids) = Except.error Err.valueError) ∧
    (∀ σ n (f : MergeFn) ids, ids.length < 2 →
      Merge.set_input σ n (MergeArg.list ids) = Except.error (Err.valueError, σ)) ∧
    (∀ fuel σ n f ds v,
      (σ n).kind = NodeKind.merge f →
      (σ n).inp = Dep.list ds →
      (σ n).output = PyVal.none →
      (∀ d ∈ ds, (σ d).kind = NodeKind.input ∨ (σ d).output ≠ PyVal.none) →
      ds.length < fuel →
      MergeFn.apply f (ds.map fun d => (σ d).output) = Except.ok v →
      Node.get_output (fuel+1) σ n = Except.ok (v, cacheAt σ n v)) := by
  refine ⟨fun f ids h => ?_, fun σ n f ids h => ?_,
    fun fuel σ n f ds v hk hi ho himm hlen happ => ?_⟩
  · simp [Merge.init, Merge.checkInputs, h]
  · simp [Merge.set_input, Merge.checkInputs, h]
  · rw [Node.get_output]
    simp [hk, ho, hi, outList_immediate σ ds fuel himm hlen, happ]

def c7Store : Store := fun i =>
  if i = 2 then ⟨NodeKind.merge MergeFn.concatenate, Dep.list [0, 1], PyVal.none, false, 0, 0⟩
  else if i = 1 then inputNodeSt (PyVal.arr [5, 6, 7, 8])
  else inputNodeSt (PyVal.arr [1, 2, 3, 4])

theorem merge_arity_and_declared_order_witness :
    Merge.init MergeFn.concatenate (MergeArg.list [0]) = Except.error Err.valueError ∧
    Merge.set_input c7Store 2 (MergeArg.list [0])
      = Except.error (Err.valueError, c7Store) ∧
    MergeFn.apply MergeFn.concatenate ([0, 1].map fun d => (c7Store d).output)
      = Except.ok (PyVal.arr [1, 2, 3, 4, 5, 6, 7, 8]) ∧
    Node.get_output 4 c7Store 2
      = Except.ok (PyVal.arr [1, 2, 3, 4, 5, 6, 7, 8],
          cacheAt c7Store 2 (PyVal.arr [1, 2, 3, 4, 5, 6, 7, 8])) := by
  have h := merge_arity_and_declared_order
  refine ⟨h.1 MergeFn.concatenate [0] (by decide),
    h.2.1 c7Store 2 MergeFn.concatenate [0] (by decide), rfl, ?_⟩
  exact h.2.2 3 c7Store 2 MergeFn.concatenate [0, 1]
    (PyVal.arr [1, 2, 3, 4, 5, 6, 7, 8]) rfl rfl rfl
    (by intro d hd; fin_cases hd <;> exact Or.inl rfl) (by decide) rfl
